import Mathlib

/-!
Shallow embedding of the `ec-cryptography` library (finite-field arithmetic,
the elliptic-curve group law, and the ECDSA protocol layer), together with
theorems settling the specification's claims about it.

Conventions of the embedding:
* `BigUint` values are modelled as `Nat`; `x.modpow(e, m)` is `x ^ e % m`.
* A Rust `assert!`/`assert_ne!` failure or any other panic is modelled by the
  value `none`; every fallible operation returns an `Option`.
* The source's `modpow` panics on a zero modulus; in every such reachable
  state an adjacent range assertion (`operand < p`) also fails, so the
  embedding's total `% 0` never changes the resulting `Option` value.
-/

namespace ECC

/-! `FiniteField` from `src/finite_field.rs` (an identical private copy also
lives in `src/lib.rs`). Operations assert `operand < p` and return the
reduced result; a failed assertion is `none`. -/
namespace FiniteField

/-- `FiniteField::add`: asserts `c < p` and `d < p`, returns `(c + d) mod p`. -/
def add (c d p : Nat) : Option Nat :=
  if c < p ∧ d < p then some ((c + d) % p) else none

/-- `FiniteField::multiplication`: asserts `c < p` and `d < p`, returns `(c * d) mod p`. -/
def multiplication (c d p : Nat) : Option Nat :=
  if c < p ∧ d < p then some ((c * d) % p) else none

/-- `FiniteField::inverse_addition`: asserts `c < p`, returns `p - c`
(with no final reduction modulo `p`). -/
def inverse_addition (c p : Nat) : Option Nat :=
  if c < p then some (p - c) else none

/-- `FiniteField::subtract`: asserts `c < p` and `d < p`, computes
`inverse_addition d p`, asserts the result is `< p`, then adds. -/
def subtract (c d p : Nat) : Option Nat :=
  if c < p ∧ d < p then
    match inverse_addition d p with
    | none => none
    | some d_inverse => if d_inverse < p then add c d_inverse p else none
  else none

/-- `FiniteField::inverse_multiplication`: asserts `c < p`, returns
`c ^ (p - 2) mod p` (Fermat). The source computes `p - 2` with `BigUint`
subtraction, which panics for `p < 2`; hence the `2 ≤ p` guard. -/
def inverse_multiplication (c p : Nat) : Option Nat :=
  if c < p then
    if 2 ≤ p then some (c ^ (p - 2) % p) else none
  else none

/-- `FiniteField::divide`: asserts `c < p` and `d < p`, computes
`inverse_multiplication d p`, asserts it is `< p`, then multiplies. -/
def divide (c d p : Nat) : Option Nat :=
  if c < p ∧ d < p then
    match inverse_multiplication d p with
    | none => none
    | some d_inverse => if d_inverse < p then multiplication c d_inverse p else none
  else none

end FiniteField

/-- `Point` from `src/ec_generic/elliptic_curve.rs` (structurally equal
variant also in `src/lib.rs`). -/
inductive Point where
  | Coordinate (x y : Nat)
  | Identity
deriving DecidableEq, Repr

/-- `EllipticCurve` from `src/ec_generic/elliptic_curve.rs`: the curve
`y^2 = x^3 + a*x + b` over `F_p` (same fields as the copy in `src/lib.rs`). -/
structure EllipticCurve where
  a : Nat
  b : Nat
  p : Nat
deriving DecidableEq, Repr

/-- `BigUint::bits()`: the bit length of `n` (0 for 0). Implemented with a
fuel argument so that it is structurally recursive; `fuel = n` suffices
since the bit length of `n` is at most `n` for `n ≥ 1`. -/
def bitsAux : Nat → Nat → Nat
  | 0, _ => 0
  | fuel + 1, n => if n = 0 then 0 else bitsAux fuel (n / 2) + 1

/-- `BigUint::bits()` applied to `n`. -/
def bits (n : Nat) : Nat := bitsAux n n

/-- `BigUint::bit(i)`: bit `i` of `d`. -/
def bit (d i : Nat) : Bool := d / 2 ^ i % 2 == 1

namespace EllipticCurve

/-- `EllipticCurve::is_on_curve`: `Identity` is on the curve; for a
coordinate point it compares `y^2 mod p` with `x^3 + a*x + b mod p`,
built from `FiniteField` calls whose range assertions can fail. -/
def is_on_curve (ec : EllipticCurve) (c : Point) : Option Bool :=
  match c with
  | Point.Coordinate x y =>
    match FiniteField.multiplication ec.a x ec.p with
    | none => none
    | some ax =>
      match FiniteField.add ax ec.b ec.p with
      | none => none
      | some axb =>
        match FiniteField.add (x ^ 3 % ec.p) axb ec.p with
        | none => none
        | some rhs => some (y ^ 2 % ec.p == rhs)
  | Point.Identity => some true

/-- `EllipticCurve::compute_third_point` (identical code in
`src/ec_generic/elliptic_curve.rs` and `src/lib.rs`):
`x3 = s^2 - x1 - x2`, `y3 = s*(x1 - x3) - y1`, with final range asserts. -/
def compute_third_point (ec : EllipticCurve) (x1 y1 x2 s : Nat) : Option Point :=
  match FiniteField.subtract (s ^ 2 % ec.p) x1 ec.p with
  | none => none
  | some t =>
    match FiniteField.subtract t x2 ec.p with
    | none => none
    | some x3 =>
      match FiniteField.subtract x1 x3 ec.p with
      | none => none
      | some dx =>
        match FiniteField.multiplication s dx ec.p with
        | none => none
        | some sdx =>
          match FiniteField.subtract sdx y1 ec.p with
          | none => none
          | some y3 =>
            if x3 < ec.p ∧ y3 < ec.p then some (Point.Coordinate x3 y3) else none

/-- `EllipticCurve::add` from `src/ec_generic/elliptic_curve.rs`: asserts
both operands are on the curve and distinct (`assert_ne!`), handles the
identity and vertical-chord cases, otherwise computes the chord slope. -/
def add (ec : EllipticCurve) (c d : Point) : Option Point :=
  match ec.is_on_curve c with
  | none => none
  | some oc =>
    if oc then
      match ec.is_on_curve d with
      | none => none
      | some od =>
        if od then
          if c = d then none
          else
            match c, d with
            | Point.Identity, Point.Coordinate x y => some (Point.Coordinate x y)
            | Point.Coordinate x y, Point.Identity => some (Point.Coordinate x y)
            | Point.Coordinate x1 y1, Point.Coordinate x2 y2 =>
              match FiniteField.add y1 y2 ec.p with
              | none => none
              | some ysum =>
                if ysum = 0 ∧ x1 = x2 then some Point.Identity
                else
                  match FiniteField.subtract y2 y1 ec.p with
                  | none => none
                  | some delta_y =>
                    match FiniteField.subtract x2 x1 ec.p with
                    | none => none
                    | some delta_x =>
                      match FiniteField.divide delta_y delta_x ec.p with
                      | none => none
                      | some s => ec.compute_third_point x1 y1 x2 s
            | Point.Identity, Point.Identity => some Point.Identity
        else none
    else none

/-- `EllipticCurve::double` from `src/ec_generic/elliptic_curve.rs`: asserts
the operand is on the curve, returns `Identity` for `Identity` and for a
coordinate point with `y = 0`, otherwise uses the tangent slope. -/
def double (ec : EllipticCurve) (c : Point) : Option Point :=
  match ec.is_on_curve c with
  | none => none
  | some oc =>
    if oc then
      match c with
      | Point.Coordinate x y =>
        if y = 0 then some Point.Identity
        else
          match FiniteField.multiplication 3 (x ^ 2 % ec.p) ec.p with
          | none => none
          | some t3x2 =>
            match FiniteField.add t3x2 ec.a ec.p with
            | none => none
            | some numerator =>
              match FiniteField.multiplication 2 y ec.p with
              | none => none
              | some denominator =>
                match FiniteField.divide numerator denominator ec.p with
                | none => none
                | some s => ec.compute_third_point x y x s
      | Point.Identity => some Point.Identity
    else none

/-- `EllipticCurve::scalar_multiplication`: left-to-right double-and-add,
`T := A`, then for `i` from `bits d - 2` down to `0`: `T := double T`;
if bit `i` of `d` is set, `T := add T A`. -/
def scalar_multiplication (ec : EllipticCurve) (a : Point) (d : Nat) : Option Point :=
  (List.range (bits d - 1)).reverse.foldl
    (fun acc i =>
      match acc with
      | none => none
      | some t =>
        match ec.double t with
        | none => none
        | some t2 => if bit d i then ec.add t2 a else some t2)
    (some a)

end EllipticCurve

/-! `Lib` holds the variant implementation in `src/lib.rs`. Its `Point`,
`EllipticCurve`, `FiniteField`, `is_on_curve` and `compute_third_point`
are line-identical to the ones above and are shared; its `double` differs
(no `y = 0` early return), so it is embedded separately. -/
namespace Lib

/-- `EllipticCurve::double` from `src/lib.rs`: identical to the generic
`double` except that it has no `if *y == 0` check before computing the
tangent slope `(3x^2 + a) / (2y)`. -/
def double (ec : EllipticCurve) (c : Point) : Option Point :=
  match ec.is_on_curve c with
  | none => none
  | some oc =>
    if oc then
      match c with
      | Point.Coordinate x y =>
        match FiniteField.multiplication 3 (x ^ 2 % ec.p) ec.p with
        | none => none
        | some t3x2 =>
          match FiniteField.add t3x2 ec.a ec.p with
          | none => none
          | some numerator =>
            match FiniteField.multiplication 2 y ec.p with
            | none => none
            | some denominator =>
              match FiniteField.divide numerator denominator ec.p with
              | none => none
              | some s => ec.compute_third_point x y x s
      | Point.Identity => some Point.Identity
    else none

end Lib

/-- `ECDSA` from `src/ec_dsa/ecdsa.rs`: curve, generator `A`, subgroup
order `q`. -/
structure ECDSA where
  elliptic_curve : EllipticCurve
  a_generator : Point
  q_order : Nat

namespace ECDSA

/-- `ECDSA::generate_public_key`: `B = d * A`. (`generate_key_pair` and
`generate_private_key` only add the external RNG and are not embedded.) -/
def generate_public_key (e : ECDSA) (private_key : Nat) : Option Point :=
  e.elliptic_curve.scalar_multiplication e.a_generator private_key

/-- `ECDSA::sign`: asserts `hash, private_key, k_random < q`; computes
`R = k * A`, takes `r` as the x-coordinate of `R` (panic if `R` is the
identity), and `s = (hash + private_key * r) * k⁻¹ mod q` via the
`FiniteField` operations (whose range assertions can fail, e.g. on
`multiplication private_key r q` when `r ≥ q`). -/
def sign (e : ECDSA) (hash private_key k_random : Nat) : Option (Nat × Nat) :=
  if hash < e.q_order ∧ private_key < e.q_order ∧ k_random < e.q_order then
    match e.elliptic_curve.scalar_multiplication e.a_generator k_random with
    | none => none
    | some Point.Identity => none
    | some (Point.Coordinate r _) =>
      match FiniteField.inverse_multiplication k_random e.q_order with
      | none => none
      | some k_inverse =>
        match FiniteField.multiplication private_key r e.q_order with
        | none => none
        | some dr =>
          match FiniteField.add hash dr e.q_order with
          | none => none
          | some s1 =>
            match FiniteField.multiplication s1 k_inverse e.q_order with
            | none => none
            | some s => some (r, s)
  else none

/-- `ECDSA::verify`: asserts `hash < q`; computes `w = s⁻¹ mod q`,
`u1 = w * hash`, `u2 = w * r`, `P = u1 * A + u2 * B`, panics if `P` is the
identity, else returns whether the x-coordinate of `P` equals `r`. -/
def verify (e : ECDSA) (hash : Nat) (public_key : Point) (signature : Nat × Nat) :
    Option Bool :=
  if hash < e.q_order then
    match FiniteField.inverse_multiplication signature.2 e.q_order with
    | none => none
    | some s_inverse =>
      match FiniteField.multiplication s_inverse hash e.q_order with
      | none => none
      | some u1 =>
        match FiniteField.multiplication s_inverse signature.1 e.q_order with
        | none => none
        | some u2 =>
          match e.elliptic_curve.scalar_multiplication e.a_generator u1 with
          | none => none
          | some p1 =>
            match e.elliptic_curve.scalar_multiplication public_key u2 with
            | none => none
            | some p2 =>
              match e.elliptic_curve.add p1 p2 with
              | none => none
              | some (Point.Coordinate xp _) => some (xp == signature.1)
              | some Point.Identity => none
  else none

/-- `ECDSA::generate_hash_less_than`: the SHA-256 digest of the message,
decoded from hex and read as a big-endian integer, is an external
dependency of the library (the spec treats SHA-256 as a black box); it
enters here as the first argument `hashInt`. The function's own arithmetic
is `hashInt.modpow(1, max - 1) + 1`; `BigUint` subtraction panics for
`max = 0` and `modpow` panics on the zero modulus for `max = 1`. -/
def generate_hash_less_than (hashInt max : Nat) : Option Nat :=
  if 2 ≤ max then some (hashInt % (max - 1) + 1) else none

end ECDSA

/-- The toy curve of the repository's tests: `y^2 = x^3 + 2x + 2 mod 17`. -/
def toyEC : EllipticCurve := ⟨2, 2, 17⟩

/-- The toy ECDSA context: generator `A = (5, 1)` of prime order `q = 19`. -/
def toyECDSA : ECDSA := ⟨toyEC, Point.Coordinate 5 1, 19⟩

/-- The curve `y^2 = x^3 + 6 mod 7`: its points are `(1,0)`, `(2,0)`,
`(4,0)` and the identity, all of order dividing 2. -/
def smallEC : EllipticCurve := ⟨0, 6, 7⟩

/-- ECDSA context on `smallEC` with generator `(4, 0)` of prime order
`q = 2`; here the field prime `7` exceeds the subgroup order `2`. -/
def smallECDSA4 : ECDSA := ⟨smallEC, Point.Coordinate 4 0, 2⟩

/-- ECDSA context on `smallEC` with generator `(2, 0)` of prime order
`q = 2`. -/
def smallECDSA2 : ECDSA := ⟨smallEC, Point.Coordinate 2 0, 2⟩

/-- `true` exactly on coordinate points whose y-coordinate is zero (the
points where the two `double` implementations diverge). -/
def hasZeroY : Point → Bool
  | Point.Coordinate _ y => y == 0
  | Point.Identity => false

/-! ### Theorems settling the claims -/

/-- C6: on the toy curve `y^2 = x^3 + 2x + 2 mod 17` with generator
`A = (5, 1)` of order `q = 19`, `scalar_mul(A, 2) = (6, 3)`,
`scalar_mul(A, 10) = (7, 11)`, `scalar_mul(A, 16) = (10, 11)`,
`scalar_mul(A, 17) = (6, 14)`, `scalar_mul(A, 18) = (5, 16)`, and
`scalar_mul(A, 19) = Identity` (the subgroup-order property). -/
theorem C6_toy_scalar_multiplication :
    toyEC.scalar_multiplication (Point.Coordinate 5 1) 2 = some (Point.Coordinate 6 3) ∧
    toyEC.scalar_multiplication (Point.Coordinate 5 1) 10 = some (Point.Coordinate 7 11) ∧
    toyEC.scalar_multiplication (Point.Coordinate 5 1) 16 = some (Point.Coordinate 10 11) ∧
    toyEC.scalar_multiplication (Point.Coordinate 5 1) 17 = some (Point.Coordinate 6 14) ∧
    toyEC.scalar_multiplication (Point.Coordinate 5 1) 18 = some (Point.Coordinate 5 16) ∧
    toyEC.scalar_multiplication (Point.Coordinate 5 1) 19 = some Point.Identity := by
  decide

/-- C7: for every curve and every point `C` (in particular every on-curve
`C`, `Coordinate` or `Identity`), the call `add(C, C)` hits the
`assert_ne!` precondition (or an earlier on-curve assertion) and aborts
rather than returning a point; no chord between equal points is ever
computed. -/
theorem C7_add_equal_points_aborts (ec : EllipticCurve) (c : Point) :
    ec.add c c = none := by
  unfold EllipticCurve.add
  cases hoc : ec.is_on_curve c with
  | none => rfl
  | some oc =>
    cases oc with
    | false => rfl
    | true => simp

/-- C1 (code bug): a sign/verify round trip with entirely valid toy-curve
parameters (`d = 4`, `k = 2`, hash scalar `h = 5`, which is
`hash_scalar` of any message whose SHA-256 digest is `≡ 4 (mod 18)`)
makes `verify` abort instead of returning `true`: inside `verify`,
`u1·A = u2·B = (5, 1)` and `EllipticCurve::add` rejects equal operands. -/
theorem C1_roundtrip_aborts_on_valid_input :
    ECDSA.generate_hash_less_than 4 19 = some 5 ∧
    toyECDSA.generate_public_key 4 = some (Point.Coordinate 3 1) ∧
    toyECDSA.sign 5 4 2 = some (6, 5) ∧
    toyECDSA.verify 5 (Point.Coordinate 3 1) (6, 5) = none := by
  decide

/-- C3 counterexample: at `c = 0`, `p = 5`, the code does not return `0`:
`inverse_addition 0 5 = 5` (out of range) and the subsequent
`add 0 5 5` aborts on its range assertion. -/
theorem C3_neg_zero_add_aborts :
    FiniteField.inverse_addition 0 5 = some 5 ∧ FiniteField.add 0 5 5 = none := by
  decide

/-- C3 (amended): for every prime `p` and every `c` with `0 < c < p`,
`inverse_addition` returns `p - c` and `add c (p - c) p` returns `0`;
for `c = 0` the pair of calls aborts (see the counterexample). -/
theorem C3_add_neg_eq_zero (p c : Nat) (_hp : Nat.Prime p) (hc0 : 0 < c) (hcp : c < p) :
    FiniteField.inverse_addition c p = some (p - c) ∧
    FiniteField.add c (p - c) p = some 0 := by
  constructor
  · unfold FiniteField.inverse_addition
    rw [if_pos hcp]
  · unfold FiniteField.add
    rw [if_pos ⟨hcp, by omega⟩]
    have h2 : c + (p - c) = p := by omega
    rw [h2, Nat.mod_self]

/-- C3 witness: the amended law at `p = 5`, `c = 2`. -/
theorem C3_witness :
    FiniteField.inverse_addition 2 5 = some 3 ∧ FiniteField.add 2 3 5 = some 0 :=
  C3_add_neg_eq_zero 5 2 (by norm_num) (by decide) (by decide)

/-- C4 counterexample: `subtract 3 0 5` aborts (the claim says it returns
`3`): `inverse_addition 0 5 = 5` fails the `d_inverse < p` assertion. -/
theorem C4_subtract_zero_aborts : FiniteField.subtract 3 0 5 = none := by
  decide

/-- C4 (amended): for all `c ∈ [0, p)` and `d ∈ [1, p)`, `subtract c d p`
returns `(c − d) mod p`, a value in `[0, p)`, without aborting; for
`d = 0` it aborts (see the counterexample). -/
theorem C4_subtract_correct (p c d : Nat) (hc : c < p) (hd0 : 0 < d) (hd : d < p) :
    ∃ r, FiniteField.subtract c d p = some r ∧ r < p ∧
      (r : ℤ) % (p : ℤ) = ((c : ℤ) - (d : ℤ)) % (p : ℤ) := by
  refine ⟨(c + (p - d)) % p, ?_, Nat.mod_lt _ (by omega), ?_⟩
  · have h1 : p - d < p := by omega
    unfold FiniteField.subtract FiniteField.inverse_addition FiniteField.add
    simp [hc, hd, h1]
  · push_cast [Nat.cast_sub hd.le]
    rw [Int.emod_emod_of_dvd _ (dvd_refl (p : ℤ))]
    have h3 : (c : ℤ) + ((p : ℤ) - (d : ℤ)) = ((c : ℤ) - (d : ℤ)) + (p : ℤ) * 1 := by
      ring
    rw [h3, Int.add_mul_emod_self_left]

/-- C4 witness: the amended law at `p = 5`, `c = 3`, `d = 1`. -/
theorem C4_witness :
    ∃ r, FiniteField.subtract 3 1 5 = some r ∧ r < 5 ∧
      (r : ℤ) % (5 : ℤ) = ((3 : ℤ) - (1 : ℤ)) % (5 : ℤ) :=
  C4_subtract_correct 5 3 1 (by decide) (by decide) (by decide)

/-- C5 counterexample: `add(Identity, Identity)` aborts on the
`assert_ne!` precondition instead of returning `Identity`. -/
theorem C5_add_identity_identity_aborts :
    toyEC.add Point.Identity Point.Identity = none := by
  decide

/-- C5 (amended): for every curve and every on-curve coordinate point `P`,
`add(Identity, P) = P`, `add(P, Identity) = P`, and
`double(Identity) = Identity`; for `P = Identity` the addition aborts on
the equal-operands assertion (see the counterexample). -/
theorem C5_identity_laws (ec : EllipticCurve) (x y : Nat)
    (hc : ec.is_on_curve (Point.Coordinate x y) = some true) :
    ec.add Point.Identity (Point.Coordinate x y) = some (Point.Coordinate x y) ∧
    ec.add (Point.Coordinate x y) Point.Identity = some (Point.Coordinate x y) ∧
    ec.double Point.Identity = some Point.Identity := by
  have hid : ec.is_on_curve Point.Identity = some true := rfl
  refine ⟨?_, ?_, rfl⟩
  · unfold EllipticCurve.add
    rw [hid, hc]
    simp
  · unfold EllipticCurve.add
    rw [hid, hc]
    simp

/-- C5 witness: the amended identity laws at the toy curve and the
on-curve point `(5, 1)`. -/
theorem C5_witness :
    toyEC.add Point.Identity (Point.Coordinate 5 1) = some (Point.Coordinate 5 1) ∧
    toyEC.add (Point.Coordinate 5 1) Point.Identity = some (Point.Coordinate 5 1) ∧
    toyEC.double Point.Identity = some Point.Identity :=
  C5_identity_laws toyEC 5 1 (by decide)

/-- C8: for every digest value `H` and every modulus `q ≥ 2`,
`generate_hash_less_than` returns `H mod (q − 1) + 1`, and the result lies
in `[1, q − 1]`. -/
theorem C8_hash_scalar_range (H q : Nat) (hq : 2 ≤ q) :
    ECDSA.generate_hash_less_than H q = some (H % (q - 1) + 1) ∧
    1 ≤ H % (q - 1) + 1 ∧ H % (q - 1) + 1 ≤ q - 1 := by
  refine ⟨?_, by omega, ?_⟩
  · unfold ECDSA.generate_hash_less_than
    rw [if_pos hq]
  · have h1 : H % (q - 1) < q - 1 := Nat.mod_lt H (by omega)
    omega

/-- C8 witness: the hash-scalar law at `H = 100`, `q = 19`. -/
theorem C8_witness :
    ECDSA.generate_hash_less_than 100 19 = some (100 % 18 + 1) ∧
    1 ≤ 100 % 18 + 1 ∧ 100 % 18 + 1 ≤ 18 :=
  C8_hash_scalar_range 100 19 (by decide)

/-- C2 counterexample: a valid ECDSA context in which `sign` aborts instead
of returning a pair. On the curve `y^2 = x^3 + 6 mod 7` the point
`A = (4, 0)` has prime order `q = 2`; with `h = d = k = 1` the point
`k·A = (4, 0)` has x-coordinate `r = 4 ≥ q`, and `sign 1 1 1` aborts. -/
theorem C2_sign_aborts_large_r :
    Nat.Prime 2 ∧
    smallEC.is_on_curve (Point.Coordinate 4 0) = some true ∧
    smallECDSA4.elliptic_curve.scalar_multiplication smallECDSA4.a_generator 2
      = some Point.Identity ∧
    smallECDSA4.elliptic_curve.scalar_multiplication smallECDSA4.a_generator 1
      = some (Point.Coordinate 4 0) ∧
    smallECDSA4.sign 1 1 1 = none :=
  ⟨by norm_num, by decide, by decide, by decide, by decide⟩

/-- C2 (amended): for every ECDSA context with `q` prime and all inputs
with `0 < h < q`, `0 < d < q`, `0 < k < q`, if `k·A` is a coordinate point
whose x-coordinate `r` additionally satisfies `r < q`, then `sign`
returns the pair `(r, s)` with `r` exactly that x-coordinate (no
reduction mod `q`) and `s` the unique scalar in `[0, q)` with
`s·k ≡ h + d·r (mod q)`, i.e. `s = (h + d·r)·k⁻¹ mod q`; if `r ≥ q`,
`sign` aborts (see the counterexample). -/
theorem C2_sign_returns_r_s (e : ECDSA) (h d k r y : Nat)
    (hq : Nat.Prime e.q_order)
    (hh : h < e.q_order) (hd : d < e.q_order)
    (hk0 : 0 < k) (hk : k < e.q_order)
    (hR : e.elliptic_curve.scalar_multiplication e.a_generator k
            = some (Point.Coordinate r y))
    (hr : r < e.q_order) :
    ∃ s, e.sign h d k = some (r, s) ∧ s < e.q_order ∧
      s * k ≡ h + d * r [MOD e.q_order] := by
  have hq2 : 2 ≤ e.q_order := hq.two_le
  have hq0 : 0 < e.q_order := by omega
  have hkinv : FiniteField.inverse_multiplication k e.q_order
      = some (k ^ (e.q_order - 2) % e.q_order) := by
    unfold FiniteField.inverse_multiplication
    rw [if_pos hk, if_pos hq2]
  have hdr : FiniteField.multiplication d r e.q_order
      = some (d * r % e.q_order) := by
    unfold FiniteField.multiplication
    rw [if_pos ⟨hd, hr⟩]
  have hs1 : FiniteField.add h (d * r % e.q_order) e.q_order
      = some ((h + d * r % e.q_order) % e.q_order) := by
    unfold FiniteField.add
    rw [if_pos ⟨hh, Nat.mod_lt _ hq0⟩]
  have hs : FiniteField.multiplication ((h + d * r % e.q_order) % e.q_order)
      (k ^ (e.q_order - 2) % e.q_order) e.q_order
      = some ((h + d * r % e.q_order) % e.q_order
              * (k ^ (e.q_order - 2) % e.q_order) % e.q_order) := by
    unfold FiniteField.multiplication
    rw [if_pos ⟨Nat.mod_lt _ hq0, Nat.mod_lt _ hq0⟩]
  refine ⟨(h + d * r % e.q_order) % e.q_order
            * (k ^ (e.q_order - 2) % e.q_order) % e.q_order,
    ?_, Nat.mod_lt _ hq0, ?_⟩
  · unfold ECDSA.sign
    rw [if_pos ⟨hh, hd, hk⟩, hR]
    simp only [hkinv, hdr, hs1, hs]
  · haveI : Fact (Nat.Prime e.q_order) := ⟨hq⟩
    have hkz : (k : ZMod e.q_order) ≠ 0 := by
      rw [Ne, ZMod.natCast_zmod_eq_zero_iff_dvd]
      intro hdvd
      have := Nat.le_of_dvd hk0 hdvd
      omega
    have hfer : (k : ZMod e.q_order) ^ (e.q_order - 1) = 1 :=
      ZMod.pow_card_sub_one_eq_one hkz
    have hpow : (k : ZMod e.q_order) ^ (e.q_order - 2) * k
        = (k : ZMod e.q_order) ^ (e.q_order - 1) := by
      rw [← pow_succ]
      congr 1
      omega
    rw [← ZMod.natCast_eq_natCast_iff]
    push_cast [ZMod.natCast_mod]
    rw [mul_assoc, hpow, hfer, mul_one]

/-- C2 witness: the amended signing law on the toy context with `h = 10`,
`d = 7`, `k = 10`, where `k·A = (7, 11)`. -/
theorem C2_witness :
    ∃ s, toyECDSA.sign 10 7 10 = some (7, s) ∧ s < 19 ∧
      s * 10 ≡ 10 + 7 * 7 [MOD 19] :=
  C2_sign_returns_r_s toyECDSA 10 7 10 7 11 (show Nat.Prime 19 by norm_num)
    (by decide) (by decide) (by decide) (by decide) (by decide) (by decide)

/-- C9: whenever the nonce point `k·A` is a coordinate point whose
x-coordinate `r` satisfies `r ≥ q`, `sign` aborts — specifically, the
field multiplication of `d` and `r` modulo `q` fails its operand-range
assertion — so `sign` returns a signature only when `r < q`. -/
theorem C9_sign_aborts_when_r_ge_q (e : ECDSA) (h d k r y : Nat)
    (hh : h < e.q_order) (hd : d < e.q_order) (hk : k < e.q_order)
    (hR : e.elliptic_curve.scalar_multiplication e.a_generator k
            = some (Point.Coordinate r y))
    (hr : e.q_order ≤ r) :
    e.sign h d k = none ∧ FiniteField.multiplication d r e.q_order = none := by
  have hmul : FiniteField.multiplication d r e.q_order = none := by
    unfold FiniteField.multiplication
    rw [if_neg (by omega)]
  refine ⟨?_, hmul⟩
  unfold ECDSA.sign
  rw [if_pos ⟨hh, hd, hk⟩, hR]
  cases hkinv : FiniteField.inverse_multiplication k e.q_order with
  | none => rfl
  | some kinv => simp [hmul]

/-- C9 witness: on the curve `y^2 = x^3 + 6 mod 7` with generator
`(2, 0)` of order `q = 2`, `k·A = (2, 0)` for `k = 1` has `r = 2 ≥ q`,
and `sign 1 1 1` aborts inside the field multiplication. -/
theorem C9_witness :
    smallECDSA2.sign 1 1 1 = none ∧ FiniteField.multiplication 1 2 2 = none :=
  C9_sign_aborts_when_r_ge_q smallECDSA2 1 1 1 2 0 (by decide) (by decide)
    (by decide) (by decide) (by decide)

/-- C10 counterexample: on the curve `y^2 = x^3 + 6 mod 7` the point
`(1, 0)` is on the curve; the generic `double` returns `Identity`, but
the `lib.rs` `double` (which lacks the `y = 0` check) aborts inside
`compute_third_point` when `subtract(_, 0, p)` fails its assertion. -/
theorem C10_doubles_differ_at_y_zero :
    smallEC.is_on_curve (Point.Coordinate 1 0) = some true ∧
    smallEC.double (Point.Coordinate 1 0) = some Point.Identity ∧
    Lib.double smallEC (Point.Coordinate 1 0) = none := by
  decide

/-- C10 (amended): the two `double` implementations compute the same
function on `Identity` and on every coordinate point whose y-coordinate
is nonzero; they diverge exactly on on-curve points with `y = 0` (see the
counterexample). -/
theorem C10_doubles_agree_off_y_zero (ec : EllipticCurve) (c : Point)
    (h : hasZeroY c = false) :
    ec.double c = Lib.double ec c := by
  cases c with
  | Identity => rfl
  | Coordinate x y =>
    have hy : ¬ y = 0 := by
      simpa [hasZeroY] using h
    unfold EllipticCurve.double Lib.double
    cases hoc : ec.is_on_curve (Point.Coordinate x y) with
    | none => rfl
    | some oc =>
      cases oc with
      | false => rfl
      | true => simp [hy]

/-- C10 witness: the two doublings agree at the toy-curve point `(5, 1)`. -/
theorem C10_witness :
    toyEC.double (Point.Coordinate 5 1) = Lib.double toyEC (Point.Coordinate 5 1) :=
  C10_doubles_agree_off_y_zero toyEC (Point.Coordinate 5 1) (by decide)

end ECC
